import Mathlib

/-!
Verification of the document indexing service: a shallow embedding of the
C sources (TLV wire codec, document store, keyword scan engine, LRU response
cache, request dispatcher) as Lean definitions over byte lists, with theorems
settling the specification claims.

Bytes are modelled as `Nat` (file and wire bytes are only ever compared for
equality or re-emitted, so no `% 256` arithmetic is needed on data bytes;
where the C code narrows a value to `uint8_t`/`uint16_t` the model applies
the matching `% 2^w`).
-/

namespace DocSrv

open scoped List

/-! ## Byte-level helpers -/

/-- C strings: the bytes of a NUL-terminated buffer up to the first NUL.
Mirrors what `strlen`/`g_strdup` see after the code writes `buf[n] = '\x7b'`-style
terminators (`dst[l] = 0`). -/
def cstr (bs : List Nat) : List Nat := bs.takeWhile (fun b => b ≠ 0)

/-- Little-endian 2-byte encoding of a `uint16_t` store. -/
def u16le (n : Nat) : List Nat := [n % 256, n / 256 % 256]

/-- Little-endian 4-byte encoding of a `uint32_t` store. -/
def u32le (n : Nat) : List Nat :=
  [n % 256, n / 256 % 256, n / 65536 % 256, n / 16777216 % 256]

/-- Little-endian decode of a 4-byte buffer (the `dec_u32` memcpy). -/
def u32dec (bs : List Nat) : Nat :=
  bs.getD 0 0 + 256 * bs.getD 1 0 + 65536 * bs.getD 2 0 + 16777216 * bs.getD 3 0

/-- The C cast `(int)key_u32`: reinterpret a `uint32_t` as a signed 32-bit int. -/
def i32ofU32 (n : Nat) : Int :=
  if n < 2147483648 then (n : Int) else (n : Int) - 4294967296

/-- Decimal digits, fuelled so that it reduces by `decide`;
`fuel ≥ n` always suffices since `n / 10 < n` for `n ≥ 10`. -/
def natDigitsGo : Nat → Nat → List Nat
  | 0, n => [48 + n]
  | fuel + 1, n =>
    if n < 10 then [48 + n]
    else natDigitsGo fuel (n / 10) ++ [48 + n % 10]

/-- Decimal digits of a natural number as ASCII bytes (what `%d`/`%u`
formatting of a non-negative value produces). -/
def natDigits (n : Nat) : List Nat := natDigitsGo n n

/-! ## Keyword scan engine (`src/server/doc/docutil.c`, `doc_count_keyword`)

The C function streams the file through a byte-by-byte state machine with
state `(match, matched_line, *out)`.  Chunked 8 KiB reads are transparent:
the state persists across chunks, so the fold is over the whole byte list.
`doc_count_keyword` below is the `stop_at_first = 0` mode;
`doc_contains_keyword` is the `stop_at_first = 1` mode, whose early
`return 1` makes the result "some completion of the term occurred". -/

/-- One iteration of the scan loop body for byte `c`:
state is `(match, matched_line, count)`. -/
def kwStep (kw : List Nat) (st : Nat × Bool × Nat) (c : Nat) : Nat × Bool × Nat :=
  let m := st.1
  let line := st.2.1
  let cnt := st.2.2
  let ml : Nat × Bool :=
    if c = kw.getD m 0 then
      if m + 1 = kw.length then (0, true) else (m + 1, line)
    else ((if c = kw.headD 0 then 1 else 0), line)
  if c = 10 then (ml.1, false, if ml.2 then cnt + 1 else cnt)
  else (ml.1, ml.2, cnt)

/-- The `doc_count_keyword(path, kw, 0, &out)`: full count of lines containing
the keyword, including the end-of-buffer adjustment
`if (match > 0 && matched_line) ++(*out)`. -/
def doc_count_keyword (kw content : List Nat) : Nat :=
  if kw.length = 0 then 0
  else
    let st := content.foldl (kwStep kw) (0, false, 0)
    if 0 < st.1 ∧ st.2.1 then st.2.2 + 1 else st.2.2

/-- The `stop_at_first` scan: returns true as soon as `match == kw_len`. -/
def kwScanHit (kw : List Nat) (m : Nat) : List Nat → Bool
  | [] => false
  | c :: rest =>
    if c = kw.getD m 0 then
      if m + 1 = kw.length then true
      else kwScanHit kw (m + 1) rest
    else kwScanHit kw (if c = kw.headD 0 then 1 else 0) rest

/-- The `doc_count_keyword(path, kw, 1, &out) == 1`, i.e. `doc_contains_keyword`:
the empty keyword is defined as "no matches". -/
def doc_contains_keyword (kw content : List Nat) : Bool :=
  if kw.length = 0 then false else kwScanHit kw 0 content

/-! ### Soundness of the scan -/

theorem kwScanHit_sound (kw : List Nat) (rest : List Nat) :
    ∀ (acc : List Nat) (m : Nat), m < kw.length →
      kw.take m <:+ acc → kwScanHit kw m rest = true → kw <:+: acc ++ rest := by
  induction rest with
  | nil => intro acc m _ _ hrun; simp [kwScanHit] at hrun
  | cons c rs ih =>
    intro acc m hm hsuf hrun
    have hget : kw.getD m 0 = kw[m] := List.getD_eq_getElem kw 0 hm
    have htake : kw.take m ++ [kw[m]] = kw.take (m + 1) := by
      rw [← List.concat_eq_append]
      exact List.take_concat_get kw m hm
    rw [kwScanHit] at hrun
    by_cases h1 : c = kw.getD m 0
    · rw [if_pos h1] at hrun
      by_cases h2 : m + 1 = kw.length
      · -- the term just completed: the last `kw.length` bytes equal `kw`
        have hkw : kw.take m ++ [c] = kw := by
          rw [h1, hget, htake, h2, List.take_length]
        obtain ⟨s, hs⟩ := hsuf
        have hsfx : kw <:+ acc ++ [c] := ⟨s, by rw [← hkw, ← List.append_assoc, hs]⟩
        have : kw <:+: (acc ++ [c]) ++ rs := hsfx.isInfix.trans ⟨[], rs, by simp⟩
        simpa using this
      · rw [if_neg h2] at hrun
        have hm' : m + 1 < kw.length := Nat.lt_of_le_of_ne hm h2
        have hsuf' : kw.take (m + 1) <:+ acc ++ [c] := by
          obtain ⟨s, hs⟩ := hsuf
          refine ⟨s, ?_⟩
          rw [← htake, ← List.append_assoc, hs, h1, hget]
        have := ih (acc ++ [c]) (m + 1) hm' hsuf' hrun
        simpa using this
    · rw [if_neg h1] at hrun
      by_cases h3 : c = kw.headD 0
      · rw [if_pos h3] at hrun
        -- here `m ≠ 0`, hence `1 < kw.length`
        have hm0 : m ≠ 0 := by
          intro h0
          subst h0
          apply h1
          rw [h3]
          cases kw with
          | nil => simp at hm
          | cons a l => rfl
        have h1lt : 1 < kw.length := Nat.lt_of_le_of_lt (by omega) hm
        have hsuf' : kw.take 1 <:+ acc ++ [c] := by
          cases kw with
          | nil => simp at hm
          | cons a l =>
            have : c = a := by simpa [List.headD] using h3
            exact ⟨acc, by simp [this]⟩
        have := ih (acc ++ [c]) 1 h1lt hsuf' hrun
        simpa using this
      · rw [if_neg h3] at hrun
        have := ih (acc ++ [c]) 0 (Nat.pos_of_ne_zero (by omega)) (by simp) hrun
        simpa using this

/-- C1 (amended): the per-document scan is sound — whenever it reports a hit,
the document's content really contains the term as a contiguous byte
substring.  (The converse direction of the original claim is refuted by
`C1_counterexample`.) -/
theorem C1_scan_hit_sound (kw content : List Nat)
    (h : doc_contains_keyword kw content = true) : kw <:+: content := by
  unfold doc_contains_keyword at h
  by_cases hk : kw.length = 0
  · rw [if_pos hk] at h; exact absurd h (by simp)
  · rw [if_neg hk] at h
    have := kwScanHit_sound kw content [] 0 (Nat.pos_of_ne_zero hk) (by simp) h
    simpa using this

/-- Witness for C1: a concrete hit, with the hypothesis discharged by `decide`. -/
theorem C1_scan_hit_sound_witness :
    doc_contains_keyword [97] [97, 98] = true ∧ ([97] : List Nat) <:+: [97, 98] :=
  ⟨by decide, C1_scan_hit_sound [97] [97, 98] (by decide)⟩

/-- C1 counterexample: the file "aaab" contains the term "aab" as a contiguous
substring, yet the scan reports a miss — after the mismatch at the third `a`
the matcher restarts at offset 1 and can never recover the overlap. -/
theorem C1_counterexample :
    ([97, 97, 98] : List Nat) <:+: [97, 97, 97, 98] ∧
      doc_contains_keyword [97, 97, 98] [97, 97, 97, 98] = false := by
  constructor
  · exact ⟨[97], [], by decide⟩
  · decide

/-- C4: the code drops a still-matched final line when the file's last byte
leaves no partial match in progress.  For the file "ab" (no trailing newline)
and term "ab", the only line contains a completed match, yet the count is 0:
the end-of-file rule at docutil.c:145 requires `match > 0` in addition to
`matched_line`. -/
theorem C4_final_line_dropped :
    doc_count_keyword [97, 98] [97, 98] = 0 ∧
      doc_contains_keyword [97, 98] [97, 98] = true ∧
      (10 : Nat) ∉ [97, 98] := by decide

/-! ## TLV wire codec (`src/common/protocol.c`)

A builder is a write window over a frame's payload region; `used` is the
length of the bytes written so far.  The response header is 4 packed bytes
(`u16 len, u8 opcode, u8 status`), so the payload capacity is
`RSP_MAX - 4 = 65531`. -/

/-- The `RSP_MAX` / `REQ_MAX`. -/
def FRAME_MAX : Nat := 65535

/-- The `sizeof(rsp_hdr_t)` (packed). -/
def RSP_HDR_SZ : Nat := 4

/-- The `sizeof(req_hdr_t)` (packed: u16 len, u8 opcode, 4-byte pid). -/
def REQ_HDR_SZ : Nat := 7

/-- The `sizeof rsp->payload`. -/
def RSP_PAYLOAD_CAP : Nat := FRAME_MAX - RSP_HDR_SZ

structure ProtoBuilder where
  buf : List Nat
  cap : Nat
  deriving DecidableEq, Repr

/-- Wire bytes of one TLV: `{type:u8, len:u16 little-endian, value bytes}`
(the two `memcpy`s of `proto_add_tlv`; `tlv_t` is packed). -/
def tlvEncode (t : Nat) (v : List Nat) : List Nat :=
  t % 256 :: u16le v.length ++ v

/-- The `proto_add_tlv`: fails when `len > UINT16_MAX` or when
`used + 3 + len > cap`. -/
def proto_add_tlv (b : ProtoBuilder) (t : Nat) (v : List Nat) : Option ProtoBuilder :=
  if 65535 < v.length then none
  else if b.cap < b.buf.length + (3 + v.length) then none
  else some { b with buf := b.buf ++ tlvEncode t v }

structure ResponseFrame where
  len : Nat
  opcode : Nat
  status : Nat
  payload : List Nat
  deriving DecidableEq, Repr

/-- The `proto_rsp_init`: zeroed frame with opcode and status stamped, and a
builder over the (empty) payload window. -/
def proto_rsp_init (op status : Nat) : ResponseFrame × ProtoBuilder :=
  ({ len := 0, opcode := op % 256, status := status % 256, payload := [] },
   { buf := [], cap := RSP_PAYLOAD_CAP })

/-- The `proto_rsp_finish`: stamps `hdr.len = sizeof hdr + used`; fails when the
total exceeds `RSP_MAX`. -/
def proto_rsp_finish (rsp : ResponseFrame) (b : ProtoBuilder) : Option ResponseFrame :=
  if FRAME_MAX < RSP_HDR_SZ + b.buf.length then none
  else some { rsp with len := RSP_HDR_SZ + b.buf.length, payload := b.buf }

/-- One cursor step (`proto_cursor_next`): fewer than 3 bytes before the end
is `done` (OS_OK); a TLV header whose length overruns the buffer is
`corrupt` (OS_ERROR); otherwise `more` (OS_AGAIN) with the value slice and
the cursor advanced. -/
inductive CursorStep where
  | more (t : Nat) (v : List Nat) (rest : List Nat)
  | done
  | corrupt
  deriving DecidableEq, Repr

def proto_cursor_next : List Nat → CursorStep
  | t :: l0 :: l1 :: rest =>
    if rest.length < l0 + 256 * l1 then .corrupt
    else .more t (rest.take (l0 + 256 * l1)) (rest.drop (l0 + 256 * l1))
  | _ => .done

theorem cursor_next_more_length {buf : List Nat} {t : Nat} {v rest : List Nat}
    (h : proto_cursor_next buf = .more t v rest) : rest.length < buf.length := by
  match buf with
  | [] => simp [proto_cursor_next] at h
  | [_] => simp [proto_cursor_next] at h
  | [_, _] => simp [proto_cursor_next] at h
  | a :: b :: c :: r =>
    rw [proto_cursor_next] at h
    split at h
    · exact absurd h (by simp)
    · cases h
      simp only [List.length_drop, List.length_cons]
      omega

/-- Drain the cursor: `some tlvs` when it yields that TLV sequence then
`End`; `none` when it reports `Corrupt` at any point. -/
def cursorRun (buf : List Nat) : Option (List (Nat × List Nat)) :=
  match h : proto_cursor_next buf with
  | .done => some []
  | .corrupt => none
  | .more t v rest => (cursorRun rest).map (fun l => (t, v) :: l)
termination_by buf.length
decreasing_by exact cursor_next_more_length h

/-- The `proto_build_simple_rsp`: init, add one string TLV (failure is silently
ignored — the C code discards the return value), finish.  Finish cannot fail
here because `used ≤ cap = FRAME_MAX - 4`. -/
def proto_build_simple_rsp (op : Nat) (msg : List Nat) : ResponseFrame :=
  let ib := proto_rsp_init op 0
  let b := (proto_add_tlv ib.2 1 msg).getD ib.2
  (proto_rsp_finish ib.1 b).getD ib.1

/-- The `proto_arg_first_str`: first TLV of the payload must decode, be a string,
be non-empty and have `len < cap` where the dispatcher passes a 256-byte
buffer.  The result is the NUL-terminated copy, i.e. the bytes up to the
first NUL. -/
def proto_arg_first_str (payload : List Nat) : Option (List Nat) :=
  match proto_cursor_next payload with
  | .more t v _ =>
    if t = 1 ∧ v.length ≠ 0 ∧ v.length < 256 then some (cstr v) else none
  | _ => none

/-! ### C6: framing round trip -/

/-- Total wire size of a TLV sequence, `sum (3 + len)`. -/
def sumSizes (tlvs : List (Nat × List Nat)) : Nat :=
  (tlvs.map (fun p => 3 + p.2.length)).sum

/-- All encoded TLVs back to back, as laid out in the payload. -/
def encodeAll (tlvs : List (Nat × List Nat)) : List Nat :=
  (tlvs.map (fun p => tlvEncode p.1 p.2)).flatten

/-- Run a sequence of `Add TLV` calls (each propagating failure). -/
def addAll (b : ProtoBuilder) : List (Nat × List Nat) → Option ProtoBuilder
  | [] => some b
  | p :: ps =>
    match proto_add_tlv b p.1 p.2 with
    | none => none
    | some b' => addAll b' ps

theorem tlvEncode_length (t : Nat) (v : List Nat) :
    (tlvEncode t v).length = 3 + v.length := by
  simp [tlvEncode, u16le]
  omega

theorem addAll_ok (tlvs : List (Nat × List Nat)) : ∀ b : ProtoBuilder,
    b.cap ≤ 65534 → b.buf.length + sumSizes tlvs ≤ b.cap →
    addAll b tlvs = some ⟨b.buf ++ encodeAll tlvs, b.cap⟩ := by
  induction tlvs with
  | nil => intro b _ _; simp [addAll, encodeAll]
  | cons p ps ih =>
    intro b hcap hfit
    have hsum : sumSizes (p :: ps) = (3 + p.2.length) + sumSizes ps := by
      simp [sumSizes]
    have hv : ¬ 65535 < p.2.length := by omega
    have hc : ¬ b.cap < b.buf.length + (3 + p.2.length) := by omega
    rw [addAll, proto_add_tlv, if_neg hv, if_neg hc]
    have := ih ⟨b.buf ++ tlvEncode p.1 p.2, b.cap⟩ hcap
      (by simp [tlvEncode_length]; omega)
    show addAll ⟨b.buf ++ tlvEncode p.1 p.2, b.cap⟩ ps = _
    rw [this]
    simp [encodeAll, List.append_assoc]

theorem cursor_next_encode (t : Nat) (v rest : List Nat) (hv : v.length ≤ 65535) :
    proto_cursor_next (tlvEncode t v ++ rest) = .more (t % 256) v rest := by
  have hlen : v.length % 256 + 256 * (v.length / 256 % 256) = v.length := by
    have : v.length / 256 < 256 := by omega
    rw [Nat.mod_eq_of_lt this]
    omega
  have hshape : tlvEncode t v ++ rest =
      t % 256 :: v.length % 256 :: (v.length / 256 % 256) :: (v ++ rest) := by
    simp [tlvEncode, u16le]
  rw [hshape]
  rw [proto_cursor_next]
  rw [hlen]
  rw [if_neg (by simp)]
  congr 1
  · exact List.take_left v rest
  · exact List.drop_left v rest

theorem cursorRun_more {buf : List Nat} {t : Nat} {v rest : List Nat}
    (h : proto_cursor_next buf = .more t v rest) :
    cursorRun buf = (cursorRun rest).map (fun l => (t, v) :: l) := by
  rw [cursorRun]
  split
  · simp_all
  · simp_all
  · rename_i t' v' rest' h'
    rw [h] at h'
    cases h'
    rfl

theorem cursorRun_encodeAll (tlvs : List (Nat × List Nat))
    (h : ∀ p ∈ tlvs, p.1 < 256 ∧ p.2.length ≤ 65535) :
    cursorRun (encodeAll tlvs) = some tlvs := by
  induction tlvs with
  | nil =>
    rw [cursorRun]
    simp [encodeAll, proto_cursor_next]
  | cons p ps ih =>
    have hp := h p (by simp)
    have henc : encodeAll (p :: ps) = tlvEncode p.1 p.2 ++ encodeAll ps := by
      simp [encodeAll]
    rw [henc, cursorRun_more (cursor_next_encode p.1 p.2 (encodeAll ps) hp.2)]
    rw [ih (fun q hq => h q (by simp [hq]))]
    simp [Nat.mod_eq_of_lt hp.1]

/-- C6: for any TLV sequence whose total `3 + len` fits in the response
payload capacity, every `Add TLV` succeeds, `Finish` succeeds and stamps the
header length to `header_size + sum (3 + len)`, and a cursor over the
finished frame's payload yields exactly the appended TLV sequence, in order,
followed by `End`. -/
theorem sumSizes_mem {tlvs : List (Nat × List Nat)} {p : Nat × List Nat}
    (hp : p ∈ tlvs) : 3 + p.2.length ≤ sumSizes tlvs :=
  List.single_le_sum (fun (x : Nat) _ => Nat.zero_le x)
    (3 + p.2.length) (List.mem_map_of_mem (fun q => 3 + q.2.length) hp)

theorem proto_rsp_finish_ok (r : ResponseFrame) (b : ProtoBuilder)
    (h : RSP_HDR_SZ + b.buf.length ≤ FRAME_MAX) :
    proto_rsp_finish r b =
      some { r with len := RSP_HDR_SZ + b.buf.length, payload := b.buf } := by
  rw [proto_rsp_finish, if_neg (by omega)]

theorem encodeAll_length (tlvs : List (Nat × List Nat)) :
    (encodeAll tlvs).length = sumSizes tlvs := by
  induction tlvs with
  | nil => rfl
  | cons p ps ih =>
    simp only [encodeAll, sumSizes, List.map_cons, List.flatten_cons,
      List.length_append, List.sum_cons, tlvEncode_length] at *
    omega

theorem C6_framing_roundtrip (tlvs : List (Nat × List Nat))
    (htype : ∀ p ∈ tlvs, p.1 < 256)
    (hfit : sumSizes tlvs ≤ RSP_PAYLOAD_CAP) (op status : Nat) :
    ∃ b f, addAll (proto_rsp_init op status).2 tlvs = some b ∧
      proto_rsp_finish (proto_rsp_init op status).1 b = some f ∧
      f.len = RSP_HDR_SZ + sumSizes tlvs ∧
      cursorRun f.payload = some tlvs := by
  have hcap : RSP_PAYLOAD_CAP ≤ 65534 := by decide
  have hadd := addAll_ok tlvs (proto_rsp_init op status).2 hcap
    (by simpa [proto_rsp_init] using hfit)
  refine ⟨⟨encodeAll tlvs, RSP_PAYLOAD_CAP⟩,
    ⟨RSP_HDR_SZ + sumSizes tlvs, op % 256, status % 256, encodeAll tlvs⟩,
    ?_, ?_, rfl, ?_⟩
  · simpa [proto_rsp_init] using hadd
  · rw [proto_rsp_finish_ok _ _ ?_]
    · simp [proto_rsp_init, encodeAll_length]
    · simp only [encodeAll_length]
      simp only [RSP_PAYLOAD_CAP, FRAME_MAX, RSP_HDR_SZ] at hfit ⊢
      omega
  · exact cursorRun_encodeAll tlvs (fun p hp =>
      ⟨htype p hp, by
        have := sumSizes_mem hp
        simp only [RSP_PAYLOAD_CAP, FRAME_MAX, RSP_HDR_SZ] at hfit
        omega⟩)

/-- Witness for C6 at a concrete TLV sequence. -/
theorem C6_framing_roundtrip_witness :
    (∀ p ∈ [(1, [97, 98]), (0, [42, 0, 0, 0])], p.1 < 256) ∧
    sumSizes [(1, [97, 98]), (0, [42, 0, 0, 0])] ≤ RSP_PAYLOAD_CAP ∧
    (∃ b f,
      addAll (proto_rsp_init 4 0).2 [(1, [97, 98]), (0, [42, 0, 0, 0])] = some b ∧
      proto_rsp_finish (proto_rsp_init 4 0).1 b = some f ∧
      f.len = RSP_HDR_SZ + sumSizes [(1, [97, 98]), (0, [42, 0, 0, 0])] ∧
      cursorRun f.payload = some [(1, [97, 98]), (0, [42, 0, 0, 0])]) :=
  ⟨by decide, by decide,
    C6_framing_roundtrip [(1, [97, 98]), (0, [42, 0, 0, 0])]
      (by decide) (by decide) 4 0⟩

/-! ## Document store (`src/server/storage.c`)

The store file is a sequence of fixed-size records; offsets are multiples of
the record size, so the file is modelled as the list of its records.  String
fields hold the C-string bytes of the fixed `char` arrays. -/

structure Document where
  key : Int
  title : List Nat
  authors : List Nat
  path : List Nat
  year : Nat
  deriving DecidableEq

/-- The zero-filled record with `key = -1` written by `stg_del_doc`. -/
def tombstone : Document :=
  { key := -1, title := [], authors := [], path := [], year := 0 }

/-- The `stg_add_doc`: the assigned key is `end_offset / record_size`, i.e. the
current record count; the record is appended with its key field stamped. -/
def stg_add_doc (store : List Document) (d : Document) : List Document × Int :=
  (store ++ [{ d with key := (store.length : Int) }], (store.length : Int))

/-- The `stg_get_doc`: negative key → error; offset beyond the file → error;
read the row; a row whose key field differs (tombstone) → error. -/
def stg_get_doc (store : List Document) (key : Int) : Option Document :=
  if key < 0 then none
  else if store.length ≤ key.toNat then none
  else if (store.getD key.toNat tombstone).key ≠ key then none
  else some (store.getD key.toNat tombstone)

/-- The `stg_del_doc`: same validity checks as `stg_get_doc`, then the row is
overwritten in place with the tombstone record. -/
def stg_del_doc (store : List Document) (key : Int) : Option (List Document) :=
  if key < 0 then none
  else if store.length ≤ key.toNat then none
  else if (store.getD key.toNat tombstone).key ≠ key then none
  else some (store.set key.toNat tombstone)

/-- The `stg_total`: file length divided by the record size. -/
def stg_total (store : List Document) : Int := (store.length : Int)

/-- A sequence of `stg_add_doc` calls, collecting the returned keys. -/
def runAdds (store : List Document) : List Document → List Document × List Int
  | [] => (store, [])
  | d :: ds =>
    let r := stg_add_doc store d
    let rest := runAdds r.1 ds
    (rest.1, r.2 :: rest.2)

theorem runAdds_keys (ds : List Document) : ∀ store : List Document,
    (runAdds store ds).2 = (List.range' store.length ds.length).map Int.ofNat := by
  induction ds with
  | nil => intro store; simp [runAdds]
  | cons d ds ih =>
    intro store
    simp only [List.length_cons]
    rw [List.range'_succ]
    simp only [runAdds, stg_add_doc, List.map_cons]
    rw [ih]
    simp

/-- C7: successive `Add` calls to an empty store return keys 0, 1, 2, …; and
after a successful `Delete(k)`, `Get(k)` is `NotFound`, `Get(k')` for every
other key is unchanged, and `Total` is unchanged. -/
theorem C7_store_keys_delete :
    (∀ ds : List Document,
      (runAdds [] ds).2 = (List.range ds.length).map Int.ofNat) ∧
    (∀ (s : List Document) (k : Int) (s' : List Document),
      stg_del_doc s k = some s' →
      stg_get_doc s' k = none ∧
      (∀ k' : Int, k' ≠ k → stg_get_doc s' k' = stg_get_doc s k') ∧
      stg_total s' = stg_total s) := by
  constructor
  · intro ds
    rw [runAdds_keys ds []]
    simp [List.range_eq_range']
  · intro s k s' hdel
    rw [stg_del_doc] at hdel
    split at hdel
    · exact absurd hdel (by simp)
    · split at hdel
      · exact absurd hdel (by simp)
      · split at hdel
        · exact absurd hdel (by simp)
        · rename_i hneg hlen hkey
          have hk0 : ¬ k < 0 := hneg
          have hklen : ¬ s.length ≤ k.toNat := hlen
          have hs' : s' = s.set k.toNat tombstone := by
            cases hdel; rfl
          have hlen' : s'.length = s.length := by rw [hs']; simp
          have hget_del : (s.set k.toNat tombstone).getD k.toNat tombstone
              = tombstone := by
            rw [List.getD_eq_getElem _ _ (by simp; omega)]
            exact List.getElem_set_self (by simp; omega)
          refine ⟨?_, ?_, ?_⟩
          · rw [stg_get_doc, if_neg hk0, if_neg (by omega), hs', hget_del]
            simp [tombstone]
            omega
          · intro k' hk'
            rw [stg_get_doc, stg_get_doc]
            by_cases h1 : k' < 0
            · rw [if_pos h1, if_pos h1]
            · rw [if_neg h1, if_neg h1]
              by_cases h2 : s.length ≤ k'.toNat
              · rw [hlen', if_pos h2, if_pos h2]
              · rw [hlen', if_neg h2, if_neg h2]
                have hne : k'.toNat ≠ k.toNat := by omega
                have hb' : k'.toNat < (s.set k.toNat tombstone).length := by
                  simp; omega
                have hb : k'.toNat < s.length := by omega
                have : s'.getD k'.toNat tombstone = s.getD k'.toNat tombstone := by
                  rw [hs', List.getD_eq_getElem _ _ hb', List.getD_eq_getElem _ _ hb]
                  exact List.getElem_set_ne (Ne.symm hne) hb'
                rw [this]
          · rw [stg_total, stg_total, hlen']

/-- Witness store for C7. -/
def s2 : List Document := [⟨0, [], [], [], 0⟩, ⟨1, [], [], [], 0⟩]

/-- The `s2` after deleting key 0. -/
def s2d : List Document := [tombstone, ⟨1, [], [], [], 0⟩]

/-- Witness for C7 at a concrete two-record store. -/
theorem C7_store_keys_delete_witness :
    stg_del_doc s2 0 = some s2d ∧
    stg_get_doc s2d 0 = none ∧
    stg_get_doc s2d 1 = stg_get_doc s2 1 ∧
    stg_total s2d = stg_total s2 ∧
    (runAdds [] [⟨0, [], [], [], 0⟩, ⟨0, [], [], [], 0⟩]).2 =
      (List.range 2).map Int.ofNat := by
  have hdel : stg_del_doc s2 0 = some s2d := by decide
  have h := C7_store_keys_delete.2 s2 0 s2d hdel
  exact ⟨hdel, h.1, h.2.1 1 (by decide), h.2.2,
    C7_store_keys_delete.1 [⟨0, [], [], [], 0⟩, ⟨0, [], [], [], 0⟩]⟩

/-! ## LRU response cache (`src/server/cache/cache_lru.c`)

One entry holds the C-string cache key and the cached response frame.  The
doubly-linked list is modelled as the list of entries, head (= MRU) first.
The hash table maps each key to its (unique) list node, so lookup is
first-match in the list; for every state reachable from `cache_init` the
keys are distinct and the two agree. -/

/-- Cache entry: `(key, rsp)`. -/
abbrev CEntry := List Nat × ResponseFrame

structure LruCache where
  entries : List CEntry
  cap : Nat
  deriving DecidableEq

/-- The `g_hash_table_lookup(ht, kw)`. -/
def lruFind (kw : List Nat) (es : List CEntry) : Option CEntry :=
  es.find? (fun e => e.1 == kw)

/-- The `cache_get`: a miss returns OS_ERROR with the cache unchanged; a hit
splices the found node to the front (`move_front`) and copies the frame. -/
def cache_get (kw : List Nat) (c : LruCache) : Option ResponseFrame × LruCache :=
  match lruFind kw c.entries with
  | none => (none, c)
  | some e =>
    (some e.2, { c with entries := e :: c.entries.eraseP (fun x => x.1 == kw) })

/-- The `evict` while-loop body, fuelled (each iteration drops one node, so
`count` iterations always suffice): drop the tail node while
`cap && count > cap` (the `tail != NULL` conjunct is implied by
`count > cap ≥ 0`). -/
def evictGo (cap : Nat) : Nat → List CEntry → List CEntry
  | 0, es => es
  | fuel + 1, es =>
    if 0 < cap ∧ cap < es.length then evictGo cap fuel es.dropLast else es

/-- The `evict` while-loop. -/
def evictLoop (cap : Nat) (es : List CEntry) : List CEntry :=
  evictGo cap es.length es

/-- The `cache_put`: no-op when `cap == 0`; if the key is present, overwrite the
frame and splice to the front; otherwise insert a fresh node at the front
and evict down to capacity. -/
def cache_put (kw : List Nat) (rsp : ResponseFrame) (c : LruCache) : LruCache :=
  if c.cap = 0 then c
  else
    match lruFind kw c.entries with
    | some _ =>
      { c with entries := (kw, rsp) :: c.entries.eraseP (fun x => x.1 == kw) }
    | none =>
      { c with entries := evictLoop c.cap ((kw, rsp) :: c.entries) }

inductive LruOp where
  | put (kw : List Nat) (rsp : ResponseFrame)
  | get (kw : List Nat)

/-- One dispatcher-side cache operation, also recording the access history:
a `Put` accesses its key; a `Get` accesses its key only on a hit. -/
def lruStep (s : LruCache × List (List Nat)) : LruOp → LruCache × List (List Nat)
  | .put kw rsp => (cache_put kw rsp s.1, s.2 ++ [kw])
  | .get kw =>
    if (cache_get kw s.1).1.isSome then ((cache_get kw s.1).2, s.2 ++ [kw])
    else ((cache_get kw s.1).2, s.2)

/-- The `cache_init cap` with no persistence file, then a sequence of operations. -/
def runLru (cap : Nat) (ops : List LruOp) : LruCache × List (List Nat) :=
  ops.foldl lruStep (⟨[], cap⟩, [])

/-- How long ago key `k` was last accessed: 0 = accessed last,
`h.length` = never accessed. -/
def lastAcc (h : List (List Nat)) (k : List Nat) : Nat :=
  h.reverse.findIdx (fun x => x = k)

def keysOf (es : List CEntry) : List (List Nat) := es.map Prod.fst

/-- The reachable-state invariant of the LRU structure: keys are distinct,
the count is within capacity, and the list is ordered by recency of last
access (head accessed most recently). -/
def LruInv (c : LruCache) (h : List (List Nat)) : Prop :=
  (keysOf c.entries).Nodup ∧
  c.entries.length ≤ c.cap ∧
  (keysOf c.entries).Pairwise (fun a b => lastAcc h a < lastAcc h b)

theorem lastAcc_append (h : List (List Nat)) (kw k : List Nat) :
    lastAcc (h ++ [kw]) k = if k = kw then 0 else lastAcc h k + 1 := by
  unfold lastAcc
  rw [List.reverse_append]
  simp only [List.reverse_cons, List.reverse_nil, List.nil_append,
    List.singleton_append]
  by_cases hk : k = kw
  · subst hk
    rw [if_pos rfl]
    simp [List.findIdx_cons]
  · rw [if_neg hk]
    rw [List.findIdx_cons]
    have : (decide (kw = k)) = false := by
      simpa using Ne.symm hk
    rw [this]
    rfl

theorem keysOf_eraseP (kw : List Nat) (es : List CEntry) :
    keysOf (es.eraseP (fun x => x.1 == kw)) = (keysOf es).eraseP (· == kw) := by
  unfold keysOf
  rw [List.eraseP_map]
  rfl

theorem evictGo_eq_take (cap : Nat) (hcap : 0 < cap) :
    ∀ (fuel : Nat) (es : List CEntry), es.length ≤ fuel →
      evictGo cap fuel es = es.take cap := by
  intro fuel
  induction fuel with
  | zero =>
    intro es hes
    have : es = [] := List.eq_nil_of_length_eq_zero (by omega)
    subst this
    simp [evictGo]
  | succ n ih =>
    intro es hes
    rw [evictGo]
    split
    · rename_i hcond
      rw [ih es.dropLast (by simp only [List.length_dropLast]; omega)]
      rw [List.dropLast_eq_take, List.take_take]
      congr 1
      omega
    · rename_i hcond
      have : es.length ≤ cap := by
        rcases Nat.lt_or_ge es.length (cap + 1) with h | h
        · omega
        · exact absurd ⟨hcap, by omega⟩ hcond
      rw [List.take_of_length_le this]

theorem evictLoop_eq_take (cap : Nat) (hcap : 0 < cap) (es : List CEntry) :
    evictLoop cap es = es.take cap :=
  evictGo_eq_take cap hcap es.length es (le_refl _)

/-- With capacity `cap ≥ 1`, a fresh insert keeps the first `cap` entries. -/
theorem cache_put_fresh (kw : List Nat) (rsp : ResponseFrame) (c : LruCache)
    (hcap : 0 < c.cap) (hfree : lruFind kw c.entries = none) :
    cache_put kw rsp c =
      { c with entries := ((kw, rsp) :: c.entries).take c.cap } := by
  rw [cache_put, if_neg (by omega), hfree,
    evictLoop_eq_take c.cap hcap ((kw, rsp) :: c.entries)]

/-- After any `Put` into a cache of capacity ≥ 1, the key is at the front. -/
theorem cache_put_head (kw : List Nat) (rsp : ResponseFrame) (c : LruCache)
    (hcap : 0 < c.cap) :
    ((cache_put kw rsp c).entries.head?).map Prod.fst = some kw := by
  rw [cache_put, if_neg (by omega)]
  cases hfind : lruFind kw c.entries with
  | some e => simp
  | none =>
    simp only
    rw [evictLoop_eq_take c.cap hcap ((kw, rsp) :: c.entries)]
    obtain ⟨m, hm⟩ := Nat.exists_eq_add_of_lt hcap
    rw [hm]
    simp [List.take_cons]

/-- After a `Get` hit, the key is at the front. -/
theorem cache_get_hit_head (kw : List Nat) (c : LruCache) (e : CEntry)
    (hfind : lruFind kw c.entries = some e) :
    (((cache_get kw c).2.entries.head?).map Prod.fst) = some kw := by
  have hkey : e.1 = kw := by
    have := List.find?_some hfind
    simpa using this
  rw [cache_get, hfind]
  simp [hkey]

theorem lruFind_none_not_mem {kw : List Nat} {es : List CEntry}
    (h : lruFind kw es = none) : kw ∉ keysOf es := by
  intro hmem
  obtain ⟨e, he, hke⟩ := List.mem_map.mp hmem
  have := List.find?_eq_none.mp h e he
  simp [hke] at this

theorem keysOf_eraseP_erase (kw : List Nat) (es : List CEntry) :
    keysOf (es.eraseP (fun x => x.1 == kw)) = (keysOf es).erase kw := by
  rw [keysOf_eraseP, ← List.erase_eq_eraseP']

/-- Moving an accessed key to the front preserves the recency ordering under
the extended history. -/
theorem lru_front_invariant {h : List (List Nat)} {kw : List Nat}
    {K K' : List (List Nat)} (hnd : K.Nodup)
    (hpw : K.Pairwise (fun a b => lastAcc h a < lastAcc h b))
    (hsub : K' <+ K) (hkw : kw ∉ K') :
    (kw :: K').Nodup ∧
    (kw :: K').Pairwise
      (fun a b => lastAcc (h ++ [kw]) a < lastAcc (h ++ [kw]) b) := by
  constructor
  · exact List.nodup_cons.mpr ⟨hkw, hnd.sublist hsub⟩
  · constructor
    · intro b hb
      rw [lastAcc_append, lastAcc_append, if_pos rfl,
        if_neg (fun hbk : b = kw => hkw (hbk ▸ hb))]
      omega
    · refine (hpw.sublist hsub).imp_of_mem ?_
      intro a b ha hb hab
      rw [lastAcc_append, lastAcc_append,
        if_neg (fun hx : a = kw => hkw (hx ▸ ha)),
        if_neg (fun hx : b = kw => hkw (hx ▸ hb))]
      omega

theorem lruInv_init (cap : Nat) : LruInv ⟨[], cap⟩ [] :=
  ⟨by simp [keysOf], by simp, by simp [keysOf]⟩

theorem lruInv_step {c : LruCache} {h : List (List Nat)} (op : LruOp)
    (inv : LruInv c h) :
    LruInv (lruStep (c, h) op).1 (lruStep (c, h) op).2 := by
  obtain ⟨hnd, hsz, hpw⟩ := inv
  cases op with
  | put kw rsp =>
    simp only [lruStep]
    by_cases hcap : c.cap = 0
    · have hempty : c.entries = [] := List.eq_nil_of_length_eq_zero (by omega)
      rw [cache_put, if_pos hcap]
      exact ⟨hnd, hsz, by rw [hempty]; exact List.Pairwise.nil⟩
    · cases hfind : lruFind kw c.entries with
      | some e =>
        rw [cache_put, if_neg hcap, hfind]
        have hfind' : List.find? (fun x : CEntry => x.1 == kw) c.entries = some e :=
          hfind
        have hmemE : e ∈ c.entries :=
          List.mem_of_find?_eq_some (p := fun x : CEntry => x.1 == kw) hfind'
        have hpe : (fun x : CEntry => x.1 == kw) e = true :=
          List.find?_some (p := fun x : CEntry => x.1 == kw) hfind'
        have hfr := lru_front_invariant hnd hpw
          ((keysOf c.entries).erase_sublist kw) (hnd.not_mem_erase)
        have hkeys : keysOf ((kw, rsp) :: c.entries.eraseP (fun x => x.1 == kw))
            = kw :: (keysOf c.entries).erase kw := by
          show kw :: keysOf (c.entries.eraseP (fun x => x.1 == kw)) = _
          rw [keysOf_eraseP_erase]
        have hlenE : (c.entries.eraseP (fun x => x.1 == kw)).length
            = c.entries.length - 1 := List.length_eraseP_of_mem hmemE hpe
        have hpos : 0 < c.entries.length := List.length_pos_of_mem hmemE
        refine ⟨?_, ?_, ?_⟩
        · show (keysOf ((kw, rsp) :: c.entries.eraseP (fun x => x.1 == kw))).Nodup
          rw [hkeys]; exact hfr.1
        · show ((kw, rsp) :: c.entries.eraseP (fun x => x.1 == kw)).length ≤ c.cap
          rw [List.length_cons, hlenE]
          omega
        · show (keysOf ((kw, rsp) :: c.entries.eraseP (fun x => x.1 == kw))).Pairwise _
          rw [hkeys]; exact hfr.2
      | none =>
        rw [cache_put_fresh kw rsp c (by omega) hfind]
        have hkw : kw ∉ keysOf c.entries := lruFind_none_not_mem hfind
        have hfr := lru_front_invariant hnd hpw (List.Sublist.refl _) hkw
        have hsubtake : keysOf (((kw, rsp) :: c.entries).take c.cap)
            <+ kw :: keysOf c.entries := by
          rw [keysOf, List.map_take]
          exact (List.take_sublist _ _).trans (by simp [keysOf])
        refine ⟨?_, ?_, ?_⟩
        · exact hfr.1.sublist hsubtake
        · simp only [List.length_take]
          omega
        · exact hfr.2.sublist hsubtake
  | get kw =>
    simp only [lruStep]
    cases hfind : lruFind kw c.entries with
    | none =>
      rw [cache_get, hfind]
      simp only [Option.isSome_none, Bool.false_eq_true, if_neg]
      exact ⟨hnd, hsz, hpw⟩
    | some e =>
      rw [cache_get, hfind]
      simp only [Option.isSome_some, if_pos]
      have hfind' : List.find? (fun x : CEntry => x.1 == kw) c.entries = some e :=
        hfind
      have hmemE : e ∈ c.entries :=
        List.mem_of_find?_eq_some (p := fun x : CEntry => x.1 == kw) hfind'
      have hpe : (fun x : CEntry => x.1 == kw) e = true :=
        List.find?_some (p := fun x : CEntry => x.1 == kw) hfind'
      have hkey : e.1 = kw := by simpa using hpe
      have hfr := lru_front_invariant hnd hpw
        ((keysOf c.entries).erase_sublist kw) (hnd.not_mem_erase)
      have hkeys : keysOf (e :: c.entries.eraseP (fun x => x.1 == kw))
          = kw :: (keysOf c.entries).erase kw := by
        show e.1 :: keysOf (c.entries.eraseP (fun x => x.1 == kw)) = _
        rw [keysOf_eraseP_erase, hkey]
      have hlenE : (c.entries.eraseP (fun x => x.1 == kw)).length
          = c.entries.length - 1 := List.length_eraseP_of_mem hmemE hpe
      have hpos : 0 < c.entries.length := List.length_pos_of_mem hmemE
      refine ⟨?_, ?_, ?_⟩
      · show (keysOf (e :: c.entries.eraseP (fun x => x.1 == kw))).Nodup
        rw [hkeys]; exact hfr.1
      · show (e :: c.entries.eraseP (fun x => x.1 == kw)).length ≤ c.cap
        rw [List.length_cons, hlenE]
        omega
      · show (keysOf (e :: c.entries.eraseP (fun x => x.1 == kw))).Pairwise _
        rw [hkeys]; exact hfr.2

theorem lruStep_cap (s : LruCache × List (List Nat)) (op : LruOp) :
    (lruStep s op).1.cap = s.1.cap := by
  cases op with
  | put kw rsp =>
    simp only [lruStep]
    rw [cache_put]
    split
    · rfl
    · cases lruFind kw s.1.entries <;> rfl
  | get kw =>
    simp only [lruStep]
    rw [cache_get]
    cases lruFind kw s.1.entries <;> simp

theorem runLru_inv (cap : Nat) (ops : List LruOp) :
    LruInv (runLru cap ops).1 (runLru cap ops).2 := by
  suffices hgen : ∀ s : LruCache × List (List Nat), LruInv s.1 s.2 →
      LruInv (ops.foldl lruStep s).1 (ops.foldl lruStep s).2 by
    exact hgen _ (lruInv_init cap)
  induction ops with
  | nil => intro s hs; exact hs
  | cons op ops ih =>
    intro s hs
    rw [List.foldl_cons]
    obtain ⟨c, h⟩ := s
    exact ih _ (lruInv_step op hs)

theorem runLru_cap (cap : Nat) (ops : List LruOp) :
    (runLru cap ops).1.cap = cap := by
  suffices hgen : ∀ s : LruCache × List (List Nat),
      (ops.foldl lruStep s).1.cap = s.1.cap by
    exact hgen _
  induction ops with
  | nil => intro s; rfl
  | cons op ops ih =>
    intro s
    rw [List.foldl_cons, ih, lruStep_cap]

theorem runLru_append_one (cap : Nat) (ops : List LruOp) (op : LruOp) :
    runLru cap (ops ++ [op]) = lruStep (runLru cap ops) op := by
  unfold runLru
  rw [List.foldl_append]
  rfl

/-- In a list ordered by a pairwise relation, every element before the last
one is related to the last one. -/
theorem pairwise_before_last {α : Type} {R : α → α → Prop}
    {K : List α} {e : α} (hpw : K.Pairwise R) (hlast : K.getLast? = some e) :
    ∀ a ∈ K.dropLast, R a e := by
  intro a ha
  have hsplit : K.dropLast ++ [e] = K :=
    List.dropLast_append_getLast? e (Option.mem_def.mpr hlast)
  rw [← hsplit] at hpw
  exact (List.pairwise_append.mp hpw).2.2 a ha e (by simp)

/-- C8 (amended: capacity ≥ 1; with capacity 0 every `Put` is a no-op and
the cache stays empty, see `C8_counterexample`): after any sequence of `Put`
and `Get` operations from an empty cache, (i) the entry count never exceeds
the capacity, (ii) a further `Put` leaves its key at the front, (iii) a
further `Get` that hits leaves its key at the front, and (iv) when a fresh
insert into a full cache evicts, the evicted entry is the tail, whose most
recent access is strictly earlier than that of every other cached key. -/
theorem C8_lru_invariants (cap : Nat) (ops : List LruOp) (hcap : 0 < cap) :
    (runLru cap ops).1.entries.length ≤ cap ∧
    (∀ kw rsp,
      ((runLru cap (ops ++ [LruOp.put kw rsp])).1.entries.head?).map Prod.fst
        = some kw) ∧
    (∀ kw e, lruFind kw (runLru cap ops).1.entries = some e →
      ((runLru cap (ops ++ [LruOp.get kw])).1.entries.head?).map Prod.fst
        = some kw) ∧
    (∀ kw rsp e, lruFind kw (runLru cap ops).1.entries = none →
      (runLru cap ops).1.entries.getLast? = some e →
      (runLru cap ops).1.entries.length = cap →
      (cache_put kw rsp (runLru cap ops).1).entries
          = (kw, rsp) :: (runLru cap ops).1.entries.dropLast ∧
        ∀ k ∈ keysOf ((runLru cap ops).1.entries.dropLast),
          lastAcc (runLru cap ops).2 k < lastAcc (runLru cap ops).2 e.1) := by
  obtain ⟨hnd, hsz, hpw⟩ := runLru_inv cap ops
  have hc := runLru_cap cap ops
  refine ⟨by omega, ?_, ?_, ?_⟩
  · intro kw rsp
    rw [runLru_append_one]
    show ((cache_put kw rsp (runLru cap ops).1).entries.head?).map Prod.fst
      = some kw
    exact cache_put_head kw rsp _ (by omega)
  · intro kw e hfind
    rw [runLru_append_one]
    have hsome : (cache_get kw (runLru cap ops).1).1.isSome = true := by
      rw [cache_get, hfind]
      rfl
    show (((if (cache_get kw (runLru cap ops).1).1.isSome then
        ((cache_get kw (runLru cap ops).1).2, (runLru cap ops).2 ++ [kw])
      else ((cache_get kw (runLru cap ops).1).2,
        (runLru cap ops).2)).1.entries.head?).map Prod.fst) = some kw
    rw [if_pos hsome]
    exact cache_get_hit_head kw _ e hfind
  · intro kw rsp e hfind hlast hlen
    have hcapc : 0 < (runLru cap ops).1.cap := by omega
    have hput := cache_put_fresh kw rsp _ hcapc hfind
    constructor
    · rw [hput]
      show ((kw, rsp) :: (runLru cap ops).1.entries).take (runLru cap ops).1.cap
        = _
      rw [hc, List.take_cons hcap]
      congr 1
      rw [List.dropLast_eq_take, hlen]
    · intro k hk
      have hklast : (keysOf (runLru cap ops).1.entries).getLast? = some e.1 := by
        rw [keysOf, List.getLast?_map, hlast]
        rfl
      have hk' : k ∈ (keysOf (runLru cap ops).1.entries).dropLast := by
        rw [keysOf, ← List.map_dropLast]
        exact hk
      exact pairwise_before_last hpw hklast k hk'

/-- A zero-payload frame used in concrete cache scenarios. -/
def rsp0 : ResponseFrame := ⟨4, 4, 0, []⟩

/-- Witness for C8: capacity 2, one `Put`, then another `Put` whose key ends
at the front. -/
theorem C8_lru_invariants_witness :
    (0 : Nat) < 2 ∧
    (runLru 2 [LruOp.put [97] rsp0]).1.entries.length ≤ 2 ∧
    ((runLru 2 ([LruOp.put [97] rsp0] ++ [LruOp.put [98] rsp0])).1.entries.head?).map
      Prod.fst = some [98] :=
  ⟨by decide,
   (C8_lru_invariants 2 [LruOp.put [97] rsp0] (by decide)).1,
   (C8_lru_invariants 2 [LruOp.put [97] rsp0] (by decide)).2.1 [98] rsp0⟩

/-- C8 counterexample: with capacity 0 a `Put` is a no-op (`cache_put`
returns immediately), so the most recently `Put` key is *not* at the front —
the list stays empty. -/
theorem C8_counterexample :
    ((runLru 0 [LruOp.put [107] rsp0]).1.entries.head?).map Prod.fst
        ≠ some [107] ∧
      (runLru 0 [LruOp.put [107] rsp0]).1.entries = [] := by
  constructor
  · decide
  · decide

/-! ## Cache persistence (`load_from_disk`, cache_lru.c)

`txp_read` on a regular file returns exactly `n` bytes or fails (EOF before
`n` bytes is an error), so the file is a byte list consumed left to right. -/

def readBytes (n : Nat) (file : List Nat) : Option (List Nat × List Nat) :=
  if file.length < n then none else some (file.take n, file.drop n)

/-- Read a little-endian `uint16_t`. -/
def readU16 (file : List Nat) : Option (Nat × List Nat) :=
  match readBytes 2 file with
  | none => none
  | some (bs, rest) => some (bs.getD 0 0 + 256 * bs.getD 1 0, rest)

/-- Read a little-endian `uint32_t`. -/
def readU32 (file : List Nat) : Option (Nat × List Nat) :=
  match readBytes 4 file with
  | none => none
  | some (bs, rest) => some (u32dec bs, rest)

/-- Overlay of `rlen` file bytes onto a zeroed `response_t` (the C code
reads the bytes straight into the struct; the packed header is
`u16 len, u8 opcode, u8 status` followed by the payload). -/
def frameOfBytes (bs : List Nat) : ResponseFrame :=
  { len := bs.getD 0 0 + 256 * bs.getD 1 0
    opcode := bs.getD 2 0
    status := bs.getD 3 0
    payload := bs.drop 4 }

/-- The record loop of `load_from_disk`: `for (i = 0; i < n && count < cap)`.
Any short read or malformed record (`klen == 0 || klen > 255`,
`rlen > sizeof(response_t)`) breaks out with the entries loaded so far.
Each loaded record is linked in at the FRONT of the list
(`e->next = head; head = e`), and the key is `g_strdup` of the
NUL-terminated buffer, i.e. the bytes up to the first NUL. -/
def loadLoop (cap : Nat) : Nat → List Nat → Nat → List CEntry → List CEntry
  | 0, _, _, acc => acc
  | i + 1, file, count, acc =>
    if cap ≤ count then acc
    else
      match readU16 file with
      | none => acc
      | some (klen, f1) =>
        if klen = 0 ∨ 255 < klen then acc
        else
          match readBytes klen f1 with
          | none => acc
          | some (kbytes, f2) =>
            match readU16 f2 with
            | none => acc
            | some (rlen, f3) =>
              if 65535 < rlen then acc
              else
                match readBytes rlen f3 with
                | none => acc
                | some (rbytes, f4) =>
                  loadLoop cap i f4 (count + 1)
                    ((cstr kbytes, frameOfBytes rbytes) :: acc)

/-- The `load_from_disk` over the bytes of an existing persistence file:
read a `uint32_t` count, then the record loop (from an empty cache). -/
def load_from_disk (cap : Nat) (file : List Nat) : List CEntry :=
  match readU32 file with
  | none => []
  | some (n, rest) => loadLoop cap n rest 0 []

/-- Wire bytes of one persisted record `{u16 klen, key, u16 rlen, frame}`
(what `dump_to_disk` writes). -/
def encCacheRec (r : List Nat × List Nat) : List Nat :=
  u16le r.1.length ++ r.1 ++ u16le r.2.length ++ r.2

/-- A persistence file holding the given records: `u32 N` then the records. -/
def encCacheFile (rs : List (List Nat × List Nat)) : List Nat :=
  u32le rs.length ++ (rs.map encCacheRec).flatten

/-- A well-formed persisted record: non-empty NUL-free key of at most 255
bytes and a frame of at most `sizeof(response_t)` bytes. -/
def WfCacheRec (r : List Nat × List Nat) : Prop :=
  1 ≤ r.1.length ∧ r.1.length ≤ 255 ∧ 0 ∉ r.1 ∧ r.2.length ≤ 65535

theorem readBytes_append (l rest : List Nat) :
    readBytes l.length (l ++ rest) = some (l, rest) := by
  rw [readBytes, if_neg (by simp)]
  rw [List.take_left, List.drop_left]

theorem readU16_cons (a b : Nat) (rest : List Nat) :
    readU16 (a :: b :: rest) = some (a + 256 * b, rest) := by
  rw [readU16, readBytes, if_neg (by simp)]
  rfl

theorem readU16_u16le (n : Nat) (rest : List Nat) (hn : n ≤ 65535) :
    readU16 (u16le n ++ rest) = some (n, rest) := by
  show readU16 (n % 256 :: n / 256 % 256 :: rest) = _
  rw [readU16_cons]
  have : n % 256 + 256 * (n / 256 % 256) = n := by omega
  rw [this]

theorem cstr_eq_self {l : List Nat} (h : 0 ∉ l) : cstr l = l := by
  rw [cstr, List.takeWhile_eq_self_iff]
  intro x hx
  simp only [ne_eq, decide_eq_true_eq]
  intro h0
  exact h (h0 ▸ hx)

theorem loadLoop_enc (cap : Nat) : ∀ (rs : List (List Nat × List Nat))
    (count : Nat) (acc : List CEntry) (rest : List Nat),
    (∀ r ∈ rs, WfCacheRec r) →
    loadLoop cap rs.length ((rs.map encCacheRec).flatten ++ rest) count acc =
      ((rs.take (cap - count)).map
        (fun r => (r.1, frameOfBytes r.2))).reverse ++ acc := by
  intro rs
  induction rs with
  | nil => intro count acc rest _; simp [loadLoop]
  | cons r rs ih =>
    intro count acc rest hwf
    obtain ⟨hk1, hk255, hknul, hrlen⟩ := hwf r (by simp)
    simp only [List.length_cons, List.map_cons, List.flatten_cons,
      List.append_assoc]
    rw [loadLoop]
    by_cases hcc : cap ≤ count
    · rw [if_pos hcc]
      have : cap - count = 0 := by omega
      rw [this]
      simp
    · rw [if_neg hcc]
      have henc : encCacheRec r ++ ((rs.map encCacheRec).flatten ++ rest)
          = u16le r.1.length ++ (r.1 ++ (u16le r.2.length ++ (r.2 ++
            ((rs.map encCacheRec).flatten ++ rest)))) := by
        simp [encCacheRec]
      have e1 := readU16_u16le r.1.length
        (r.1 ++ (u16le r.2.length ++ (r.2 ++ ((rs.map encCacheRec).flatten ++ rest))))
        (by omega)
      have e2 := readBytes_append r.1
        (u16le r.2.length ++ (r.2 ++ ((rs.map encCacheRec).flatten ++ rest)))
      have e3 := readU16_u16le r.2.length
        (r.2 ++ ((rs.map encCacheRec).flatten ++ rest)) (by omega)
      have e4 := readBytes_append r.2 ((rs.map encCacheRec).flatten ++ rest)
      rw [henc]
      simp only [e1, e2, e3, e4,
        if_neg (show ¬(r.1.length = 0 ∨ 255 < r.1.length) by omega),
        if_neg (show ¬(65535 < r.2.length) by omega)]
      rw [ih (count + 1) _ rest (fun q hq => hwf q (by simp [hq]))]
      have hcap : cap - count = (cap - (count + 1)) + 1 := by omega
      rw [hcap, List.take_succ_cons]
      simp [cstr_eq_self hknul]

theorem readU32_cons (a b c d : Nat) (rest : List Nat) :
    readU32 (a :: b :: c :: d :: rest) =
      some (a + 256 * b + 65536 * c + 16777216 * d, rest) := by
  rw [readU32, readBytes, if_neg (by simp)]
  rfl

theorem readU32_u32le (n : Nat) (rest : List Nat) (hn : n < 4294967296) :
    readU32 (u32le n ++ rest) = some (n, rest) := by
  show readU32 (n % 256 :: n / 256 % 256 :: n / 65536 % 256 ::
    n / 16777216 % 256 :: rest) = _
  rw [readU32_cons]
  have : n % 256 + 256 * (n / 256 % 256) + 65536 * (n / 65536 % 256)
      + 16777216 * (n / 16777216 % 256) = n := by omega
  rw [this]

/-- C3 (amended): with capacity `cap > 0` and a persistence file holding `N`
well-formed records, initialisation inserts the first `min(N, cap)` records,
each linked in at the FRONT, so the resulting list is the REVERSE of file
order: the record that appears first in the file ends up at the back, not
the front (see `C3_counterexample`). -/
theorem C3_load_reversed (rs : List (List Nat × List Nat)) (cap : Nat)
    (hwf : ∀ r ∈ rs, WfCacheRec r) (hn : rs.length < 4294967296) :
    load_from_disk cap (encCacheFile rs) =
      ((rs.take cap).map (fun r => (r.1, frameOfBytes r.2))).reverse ∧
    (load_from_disk cap (encCacheFile rs)).length = min cap rs.length := by
  have hload : load_from_disk cap (encCacheFile rs) =
      ((rs.take cap).map (fun r => (r.1, frameOfBytes r.2))).reverse := by
    rw [load_from_disk, encCacheFile, readU32_u32le rs.length _ hn]
    have := loadLoop_enc cap rs 0 [] [] hwf
    simpa using this
  refine ⟨hload, ?_⟩
  rw [hload]
  simp only [List.length_reverse, List.length_map, List.length_take]

/-- Witness for C3 at a concrete two-record file with capacity 2. -/
theorem C3_load_reversed_witness :
    (∀ r ∈ [([97], [7]), ([98], [8])], WfCacheRec r) ∧
    load_from_disk 2 (encCacheFile [([97], [7]), ([98], [8])]) =
      (([([97], [7]), ([98], [8])].take 2).map
        (fun r => (r.1, frameOfBytes r.2))).reverse ∧
    (load_from_disk 2 (encCacheFile [([97], [7]), ([98], [8])])).length =
      min 2 ([([97], [7]), ([98], [8])] : List (List Nat × List Nat)).length := by
  have hwf : ∀ r ∈ [([97], [7]), ([98], [8])], WfCacheRec r := by
    intro r hr
    simp only [List.mem_cons, List.not_mem_nil, or_false] at hr
    rcases hr with h | h <;> (subst h; constructor <;> simp [WfCacheRec])
  have h := C3_load_reversed [([97], [7]), ([98], [8])] 2 hwf (by decide)
  exact ⟨hwf, h.1, h.2⟩

/-- C3 counterexample: after loading a two-record file with capacity 2, the
front of the list is the file's SECOND record, not its first. -/
theorem C3_counterexample :
    (load_from_disk 2 (encCacheFile [([97], [7]), ([98], [8])])).head? =
        some ([98], frameOfBytes [8]) ∧
      (load_from_disk 2 (encCacheFile [([97], [7]), ([98], [8])])).head? ≠
        some ([97], frameOfBytes [7]) := by
  constructor
  · decide
  · decide

/-! ## Command schema (`src/common/commands.c`) and argument decoding -/

/-- One row of `cmd_table`: flag bytes, argument-type vector
(0 = `ARG_U32`, 1 = `ARG_STR`), arity bounds, opcode and blocking bit. -/
structure CmdRow where
  flag : List Nat
  types : List Nat
  argc_min : Nat
  argc_max : Nat
  opcode : Nat
  blocking : Bool
  deriving DecidableEq

def OP_A : Nat := 0
def OP_C : Nat := 1
def OP_D : Nat := 2
def OP_L : Nat := 3
def OP_S : Nat := 4
def OP_F : Nat := 5

/-- The canonical command table. -/
def cmd_table : List CmdRow :=
  [ ⟨[45, 97], [1, 1, 0, 1], 4, 4, OP_A, true⟩,
    ⟨[45, 99], [0], 1, 1, OP_C, false⟩,
    ⟨[45, 100], [0], 1, 1, OP_D, true⟩,
    ⟨[45, 108], [0, 1], 2, 2, OP_L, false⟩,
    ⟨[45, 115], [1, 0], 1, 2, OP_S, false⟩,
    ⟨[45, 102], [], 0, 0, OP_F, true⟩ ]

/-- The `cmd_by_opcode`: `op >= OP_COUNT` is unknown; otherwise row `op`
(`OP_A == 0` maps to row 0). -/
def cmd_by_opcode (op : Nat) : Option CmdRow :=
  if 6 ≤ op then none else cmd_table.get? op

/-- A decoded `arg_val_t`.  The dispatcher zero-fills the argument array, and
a zeroed `arg_val_t` reads back as type `ARG_U32` (= 0) with value 0. -/
inductive ArgVal where
  | u32 (n : Nat)
  | str (bs : List Nat)
  deriving DecidableEq

/-- The `memset(args, 0, …)` value. -/
def argZero : ArgVal := ArgVal.u32 0

/-- Reading `v.u32` (meaningful only after type validation). -/
def argU32 : ArgVal → Nat
  | .u32 n => n
  | .str _ => 0

/-- Reading `v.str` (meaningful only after type validation). -/
def argStr : ArgVal → List Nat
  | .str bs => bs
  | .u32 _ => []

/-- Whether the stored type tag is `ARG_U32` (the `argv[1].type == ARG_U32`
test in `handle_s`). -/
def argIsU32 : ArgVal → Bool
  | .u32 _ => true
  | .str _ => false

/-- The `arg_decoders[t]`: `dec_u32` requires wire length exactly 4 and reads
little-endian; `dec_str` borrows the slice; other tags have no decoder. -/
def decodeArg (t : Nat) (v : List Nat) : Option ArgVal :=
  if t = 0 then (if v.length = 4 then some (ArgVal.u32 (u32dec v)) else none)
  else if t = 1 then some (ArgVal.str v)
  else none

/-- The argument loop of `dismantle_request`: walk the cursor against the
type vector; `End` before `argc_min` TLVs → error, later → remaining
arguments stay zero-filled; `Corrupt` → error; type mismatch → error;
surplus TLVs beyond `argc_max` are ignored. -/
def dismantleLoop : List Nat → Nat → List Nat → Option (List ArgVal)
  | [], _, _ => some []
  | t :: ts, minRem, buf =>
    match proto_cursor_next buf with
    | .done =>
      if 0 < minRem then none
      else some ((t :: ts).map (fun _ => argZero))
    | .corrupt => none
    | .more wt v rest =>
      if wt ≠ t then none
      else
        match decodeArg t v with
        | none => none
        | some a =>
          match dismantleLoop ts (minRem - 1) rest with
          | none => none
          | some rds => some (a :: rds)

def dismantle_request (row : CmdRow) (payload : List Nat) : Option (List ArgVal) :=
  dismantleLoop row.types row.argc_min payload

/-! ## Handlers (`src/server/handlers/handle_*.c`)

Handlers are pure functions of the decoded arguments, the document store and
the document-root file system (relative path ↦ file bytes); `A` and `D`
return the updated store.  OS failures of `write`/`fork`/`mmap` are not
modelled (those paths return `OS_ERROR` in C and are unreachable here). -/

structure ServerState where
  store : List Document
  fs : List (List Nat × List Nat)
  cache : LruCache
  deriving DecidableEq

/-- The `open(path)` under the document root. -/
def fsLookup (path : List Nat) (fs : List (List Nat × List Nat)) :
    Option (List Nat) :=
  (fs.find? (fun e => e.1 == path)).map (fun e => e.2)

inductive HandlerOut where
  | ok (rsp : ResponseFrame)
  | err
  | shutdown (rsp : ResponseFrame)
  deriving DecidableEq

/-- The bounded copy-and-NUL-terminate idiom
`n = (len < max) ? len : max - 1; memcpy(dst, src, n); dst[n] = 0`,
read back as a C string. -/
def cTrunc (maxLen : Nat) (s : List Nat) : List Nat :=
  cstr (s.take (if s.length < maxLen then s.length else maxLen - 1))

/-- The `%d` of a C `int`. -/
def intDigits (i : Int) : List Nat :=
  if i < 0 then 45 :: natDigits (-i).toNat else natDigits i.toNat

/-- A response built by adding TLVs and finishing, ignoring return codes
(the handlers discard them; these messages always fit). -/
def buildRsp (op : Nat) (tlvs : List (Nat × List Nat)) : ResponseFrame :=
  let ib := proto_rsp_init op 0
  let b := tlvs.foldl (fun b p => (proto_add_tlv b p.1 p.2).getD b) ib.2
  (proto_rsp_finish ib.1 b).getD ib.1

def ERR_BYTES : List Nat := [69, 82, 82]

def MSG_DOC_NOT_FOUND : List Nat :=
  [68, 111, 99, 117, 109, 101, 110, 116, 32, 110, 111, 116, 32, 102, 111, 117,
   110, 100]

def MSG_PATH_NOT_FOUND : List Nat :=
  [80, 97, 116, 104, 32, 110, 111, 116, 32, 102, 111, 117, 110, 100]

def MSG_DOCUMENT_SP : List Nat := [68, 111, 99, 117, 109, 101, 110, 116, 32]

def MSG_SP_INDEXED : List Nat := [32, 105, 110, 100, 101, 120, 101, 100]

def MSG_INDEX_ENTRY_SP : List Nat :=
  [73, 110, 100, 101, 120, 32, 101, 110, 116, 114, 121, 32]

def MSG_SP_DELETED : List Nat := [32, 100, 101, 108, 101, 116, 101, 100]

def MSG_SP_NOT_FOUND : List Nat :=
  [32, 110, 111, 116, 32, 102, 111, 117, 110, 100]

def MSG_TITLE : List Nat := [84, 105, 116, 108, 101, 58, 32]

def MSG_AUTHORS : List Nat := [65, 117, 116, 104, 111, 114, 115, 58, 32]

def MSG_YEAR : List Nat := [89, 101, 97, 114, 58, 32]

def MSG_PATH : List Nat := [80, 97, 116, 104, 58, 32]

def MSG_SHUTDOWN : List Nat :=
  [83, 101, 114, 118, 101, 114, 32, 105, 115, 32, 115, 104, 117, 116, 116,
   105, 110, 103, 32, 100, 111, 119, 110]

/-- The `handle_a`: truncate the three strings into the fixed record fields, add
to the store, reply "Document {key} indexed". -/
def handle_a (args : List ArgVal) (store : List Document)
    (_fs : List (List Nat × List Nat)) : HandlerOut × List Document :=
  let doc : Document :=
    { key := 0
      title := cTrunc 200 (argStr (args.getD 0 argZero))
      authors := cTrunc 200 (argStr (args.getD 1 argZero))
      path := cTrunc 64 (argStr (args.getD 3 argZero))
      year := argU32 (args.getD 2 argZero) }
  let r := stg_add_doc store doc
  (HandlerOut.ok (proto_build_simple_rsp OP_A
    (MSG_DOCUMENT_SP ++ intDigits r.2 ++ MSG_SP_INDEXED)), r.1)

/-- The `handle_c`: look the key up; miss replies "Document not found"; hit
replies four string TLVs. -/
def handle_c (args : List ArgVal) (store : List Document)
    (_fs : List (List Nat × List Nat)) : HandlerOut × List Document :=
  let key := i32ofU32 (argU32 (args.getD 0 argZero))
  match stg_get_doc store key with
  | none => (HandlerOut.ok (proto_build_simple_rsp OP_C MSG_DOC_NOT_FOUND), store)
  | some doc =>
    (HandlerOut.ok (buildRsp OP_C
      [ (1, MSG_TITLE ++ doc.title),
        (1, MSG_AUTHORS ++ doc.authors),
        (1, MSG_YEAR ++ natDigits doc.year),
        (1, MSG_PATH ++ doc.path) ]), store)

/-- The `handle_d`: delete; reply "Index entry {k} deleted" or "… not found". -/
def handle_d (args : List ArgVal) (store : List Document)
    (_fs : List (List Nat × List Nat)) : HandlerOut × List Document :=
  let key := i32ofU32 (argU32 (args.getD 0 argZero))
  match stg_del_doc store key with
  | some store' =>
    (HandlerOut.ok (proto_build_simple_rsp OP_D
      (MSG_INDEX_ENTRY_SP ++ intDigits key ++ MSG_SP_DELETED)), store')
  | none =>
    (HandlerOut.ok (proto_build_simple_rsp OP_D
      (MSG_INDEX_ENTRY_SP ++ intDigits key ++ MSG_SP_NOT_FOUND)), store)

/-- The `handle_l`: resolve the document, truncate the keyword to 255 bytes,
count matching lines; a missing document replies "Document not found"; a
failing `open` of the document file is a handler error. -/
def handle_l (args : List ArgVal) (store : List Document)
    (fs : List (List Nat × List Nat)) : HandlerOut × List Document :=
  let key := i32ofU32 (argU32 (args.getD 0 argZero))
  let kw := cTrunc 256 (argStr (args.getD 1 argZero))
  match stg_get_doc store key with
  | none => (HandlerOut.ok (proto_build_simple_rsp OP_L MSG_DOC_NOT_FOUND), store)
  | some doc =>
    match fsLookup doc.path fs with
    | none => (HandlerOut.err, store)
    | some content =>
      (HandlerOut.ok (buildRsp OP_L [(0, u32le (doc_count_keyword kw content))]),
       store)

/-- Whether document `k` scans as containing the keyword (`scan_parallel`'s
per-key work item: `doc_key_contains_keyword(k, kw) == 1` sets bit `k`;
a deleted key or unopenable file yields `OS_ERROR`, leaving the bit clear).
The worker fan-out is deterministic in the worker count: the atomic counter
hands every key in `[0, total)` to exactly one worker. -/
def sHit (store : List Document) (fs : List (List Nat × List Nat))
    (kw : List Nat) (k : Nat) : Bool :=
  match stg_get_doc store (k : Int) with
  | none => false
  | some doc =>
    match fsLookup doc.path fs with
    | none => false
    | some content => doc_contains_keyword kw content

/-- One iteration of the `"[k1, k2, …]"` builder loop of `handle_s`: when
bit `k` is set, append `", "` (unless this is the first hit) and the key's
decimal digits. -/
def listAccStep (hit : Nat → Bool) (acc : List Nat × Bool) (k : Nat) :
    List Nat × Bool :=
  if hit k then
    (acc.1 ++ (if acc.2 then [] else [44, 32]) ++ natDigits k, false)
  else acc

/-- The `"[k1, k2, …]"` builder of `handle_s` (`sprintf` into `list_buf`,
`first` flag controlling the `", "` separator). -/
def buildList (total : Nat) (hit : Nat → Bool) : List Nat :=
  ((List.range total).foldl (listAccStep hit) ([91], true)).1 ++ [93]

/-- The `handle_s`: truncate the term to 255 bytes, read the optional worker
count, fail on an empty store (`total <= 0`), scan all keys and render the
ascending hit list. -/
def handle_s (args : List ArgVal) (store : List Document)
    (fs : List (List Nat × List Nat)) : HandlerOut × List Document :=
  let kw := cTrunc 256 (argStr (args.getD 0 argZero))
  let a1 := args.getD 1 argZero
  let _workers := if argIsU32 a1 ∧ argU32 a1 ≠ 0 then argU32 a1 else 1
  if store.length = 0 then (HandlerOut.err, store)
  else
    (HandlerOut.ok (proto_build_simple_rsp OP_S
      (buildList store.length (sHit store fs kw))), store)

/-- The `handle_f`: reply and signal shutdown. -/
def handle_f (_args : List ArgVal) (store : List Document)
    (_fs : List (List Nat × List Nat)) : HandlerOut × List Document :=
  (HandlerOut.shutdown (proto_build_simple_rsp OP_F MSG_SHUTDOWN), store)

/-- The `handlers[]` dispatch table. -/
def runHandler (op : Nat) (args : List ArgVal) (store : List Document)
    (fs : List (List Nat × List Nat)) : HandlerOut × List Document :=
  if op = OP_A then handle_a args store fs
  else if op = OP_C then handle_c args store fs
  else if op = OP_D then handle_d args store fs
  else if op = OP_L then handle_l args store fs
  else if op = OP_S then handle_s args store fs
  else handle_f args store fs

/-! ## Dispatcher and serve loop (`src/server/dispatcher.c`, `dserver.c`) -/

/-- A received request after `proto_recv_req` (header length already
validated against the bytes read). -/
structure Request where
  opcode : Nat
  payload : List Nat
  deriving DecidableEq

/-- The `dispatch_request`: decode the arguments against the schema, then run
the handler; a decode failure is `OS_ERROR` before any handler runs. -/
def dispatch_request (row : CmdRow) (req : Request) (store : List Document)
    (fs : List (List Nat × List Nat)) : HandlerOut × List Document :=
  match dismantle_request row req.payload with
  | none => (HandlerOut.err, store)
  | some args => runHandler row.opcode args store fs

/-- The response written to the pipe by `spawn_nonblock_child`: on
`OS_ERROR` the child synthesises an `{opcode, "ERR"}` frame so a reply
frame is always produced. -/
def child_response (row : CmdRow) (req : Request) (store : List Document)
    (fs : List (List Nat × List Nat)) : ResponseFrame :=
  match (dispatch_request row req store fs).1 with
  | HandlerOut.err => proto_build_simple_rsp row.opcode ERR_BYTES
  | HandlerOut.ok rsp => rsp
  | HandlerOut.shutdown rsp => rsp

/-- The non-blocking / blocking tail of one `serve_requests` iteration
(after the cache probe): fork a worker and forward its response (inserting
it into the cache for `S` when the term extracts), or run inline.  A child's
store mutations die with the child; only blocking handlers mutate the
parent's store.  Pipe and reply I/O are modelled as succeeding. -/
def serve_dispatch (st : ServerState) (req : Request) (row : CmdRow) :
    Option ResponseFrame × ServerState :=
  if row.blocking = false then
    let rsp := child_response row req st.store st.fs
    let cache' :=
      if req.opcode = OP_S then
        match proto_arg_first_str req.payload with
        | some kw => cache_put kw rsp st.cache
        | none => st.cache
      else st.cache
    (some rsp, { st with cache := cache' })
  else
    match dispatch_request row req st.store st.fs with
    | (HandlerOut.err, store') => (none, { st with store := store' })
    | (HandlerOut.ok rsp, store') => (some rsp, { st with store := store' })
    | (HandlerOut.shutdown rsp, store') => (some rsp, { st with store := store' })

/-- One `serve_requests` iteration for one received request: unknown opcode
drops; for `S`, a successful first-string extraction probes the cache and a
hit replies immediately (splicing the entry to the front); otherwise
dispatch.  The returned option is the reply sent to the client
(`none` = dropped, no reply). -/
def serve_step (st : ServerState) (req : Request) :
    Option ResponseFrame × ServerState :=
  match cmd_by_opcode req.opcode with
  | none => (none, st)
  | some row =>
    if req.opcode = OP_S then
      match proto_arg_first_str req.payload with
      | some kw =>
        match cache_get kw st.cache with
        | (some hit, c') => (some hit, { st with cache := c' })
        | (none, _) => serve_dispatch st req row
      | none => serve_dispatch st req row
    else serve_dispatch st req row

/-- Server startup (`main`: `stg_init` + `cache_init cap`, which loads the
persistence file only when `cap > 0`) followed by a sequence of serve
iterations. -/
def runServer (cap : Nat) (file : List Nat) (fs : List (List Nat × List Nat))
    (store0 : List Document) (reqs : List Request) : ServerState :=
  reqs.foldl (fun st req => (serve_step st req).2)
    { store := store0, fs := fs,
      cache := ⟨if cap = 0 then [] else load_from_disk cap file, cap⟩ }

/-! ### C2: non-blocking validation failures still produce a reply -/

/-- C2 (amended): for a non-blocking command whose payload fails schema
validation (missing mandatory argument, type mismatch, or corrupt cursor,
i.e. `dismantle_request` fails), the request is NOT dropped: the forked
child catches the dispatch error and writes a synthetic `{opcode, "ERR"}`
frame to the pipe, and the parent delivers it to the client.  (For `S` this
assumes the quick cache probe does not hit, since a hit replies from the
cache before any validation.)  Drops without a reply happen only for
unknown opcodes, transport failures, and blocking-command errors. -/
theorem C2_nonblocking_err_reply (st : ServerState) (req : Request)
    (row : CmdRow) (hrow : cmd_by_opcode req.opcode = some row)
    (hnb : row.blocking = false)
    (hfail : dismantle_request row req.payload = none)
    (hnohit : ∀ kw, proto_arg_first_str req.payload = some kw →
      (cache_get kw st.cache).1 = none) :
    (serve_step st req).1
      = some (proto_build_simple_rsp row.opcode ERR_BYTES) := by
  have hchild : child_response row req st.store st.fs
      = proto_build_simple_rsp row.opcode ERR_BYTES := by
    rw [child_response, dispatch_request, hfail]
  have hdisp : (serve_dispatch st req row).1
      = some (proto_build_simple_rsp row.opcode ERR_BYTES) := by
    rw [serve_dispatch, if_pos hnb]
    simp only [hchild]
  rw [serve_step]
  simp only [hrow]
  by_cases hS : req.opcode = OP_S
  · rw [if_pos hS]
    cases hfs : proto_arg_first_str req.payload with
    | none => simpa [hfs] using hdisp
    | some kw =>
      have hcg := hnohit kw hfs
      cases hcgp : cache_get kw st.cache with
      | mk o c' =>
        rw [hcgp] at hcg
        simp only at hcg
        subst hcg
        simpa [hfs, hcgp] using hdisp
  · rw [if_neg hS]
    exact hdisp

/-- Witness for C2: a `C` request with an empty payload (missing mandatory
argument) gets an `"ERR"` reply. -/
theorem C2_nonblocking_err_reply_witness :
    cmd_by_opcode OP_C = some ⟨[45, 99], [0], 1, 1, OP_C, false⟩ ∧
    dismantle_request ⟨[45, 99], [0], 1, 1, OP_C, false⟩ ([] : List Nat) = none ∧
    (serve_step ⟨[], [], ⟨[], 0⟩⟩ ⟨OP_C, []⟩).1
      = some (proto_build_simple_rsp OP_C ERR_BYTES) :=
  ⟨by decide, by decide,
   C2_nonblocking_err_reply ⟨[], [], ⟨[], 0⟩⟩ ⟨OP_C, []⟩
     ⟨[45, 99], [0], 1, 1, OP_C, false⟩ (by decide) (by decide) (by decide)
     (fun kw h => by simp [proto_arg_first_str, proto_cursor_next] at h)⟩

/-- C2 counterexample: the claim says the server sends no reply, but for the
schema-invalid `C` request above a reply is produced (the synthetic "ERR"
frame). -/
theorem C2_counterexample :
    (serve_step ⟨[], [], ⟨[], 0⟩⟩ ⟨OP_C, []⟩).1 ≠ none ∧
    (serve_step ⟨[], [], ⟨[], 0⟩⟩ ⟨OP_C, []⟩).1
      = some (proto_build_simple_rsp OP_C ERR_BYTES) := by
  constructor
  · decide
  · decide

/-! ### C9: 255-byte term truncation in the S and L handlers -/

/-- C9: both scan handlers truncate the incoming term to its first 255
bytes before scanning — for a term longer than 255 bytes the handler's
result (reply and store alike) equals the result for the term's 255-byte
prefix, with no error: the wire admits strings up to 65535 bytes but the
handlers' 256-byte stack buffers keep only `sizeof kw - 1` bytes. -/
theorem C9_term_truncation (s : List Nat) (hs : 255 < s.length) (a1 : ArgVal)
    (store : List Document) (fs : List (List Nat × List Nat)) (k : Nat) :
    handle_s [ArgVal.str s, a1] store fs
        = handle_s [ArgVal.str (s.take 255), a1] store fs ∧
    handle_l [ArgVal.u32 k, ArgVal.str s] store fs
        = handle_l [ArgVal.u32 k, ArgVal.str (s.take 255)] store fs := by
  have htr : cTrunc 256 s = cTrunc 256 (s.take 255) := by
    rw [cTrunc, cTrunc, if_neg (by omega),
      if_pos (show (s.take 255).length < 256 by rw [List.length_take]; omega)]
    congr 1
    rw [List.take_length]
  constructor
  · simp only [handle_s]
    simp only [List.getD_cons_zero, List.getD_cons_succ, argStr]
    rw [htr]
  · simp only [handle_l]
    simp only [List.getD_cons_zero, List.getD_cons_succ, argStr]
    rw [htr]

set_option maxRecDepth 4096 in
/-- Witness for C9 at a 256-byte term. -/
theorem C9_term_truncation_witness :
    255 < (List.replicate 256 97).length ∧
    handle_s [ArgVal.str (List.replicate 256 97), argZero] [] []
        = handle_s [ArgVal.str ((List.replicate 256 97).take 255), argZero] [] [] ∧
    handle_l [ArgVal.u32 0, ArgVal.str (List.replicate 256 97)] [] []
        = handle_l [ArgVal.u32 0, ArgVal.str ((List.replicate 256 97).take 255)] [] [] :=
  ⟨by simp, (C9_term_truncation (List.replicate 256 97) (by simp) argZero [] [] 0).1,
   (C9_term_truncation (List.replicate 256 97) (by simp) argZero [] [] 0).2⟩

/-! ### C10: bounds on cache keys -/

/-- The amended cache-key property: NUL-free and at most 255 bytes. -/
def GoodKey (k : List Nat) : Prop := k.length ≤ 255 ∧ 0 ∉ k

def CacheKeysOk (c : LruCache) : Prop := ∀ e ∈ c.entries, GoodKey e.1

theorem cstr_not_mem_zero (l : List Nat) : 0 ∉ cstr l := by
  intro h
  have := List.mem_takeWhile_imp h
  simp at this

theorem goodKey_cstr {v : List Nat} (h : v.length ≤ 255) : GoodKey (cstr v) :=
  ⟨le_trans (List.takeWhile_sublist _).length_le h, cstr_not_mem_zero v⟩

theorem first_str_goodKey {payload kw : List Nat}
    (h : proto_arg_first_str payload = some kw) : GoodKey kw := by
  rw [proto_arg_first_str] at h
  cases hc : proto_cursor_next payload with
  | done => rw [hc] at h; exact absurd h (by simp)
  | corrupt => rw [hc] at h; exact absurd h (by simp)
  | more t v rest =>
    rw [hc] at h
    simp only at h
    split at h
    · rename_i hcond
      cases h
      exact goodKey_cstr (by omega)
    · exact absurd h (by simp)

theorem loadLoop_keys_ok (cap : Nat) : ∀ (fuel : Nat) (file : List Nat)
    (count : Nat) (acc : List CEntry), (∀ e ∈ acc, GoodKey e.1) →
    ∀ e ∈ loadLoop cap fuel file count acc, GoodKey e.1 := by
  intro fuel
  induction fuel with
  | zero => intro file count acc hacc e he; exact hacc e he
  | succ n ih =>
    intro file count acc hacc e he
    rw [loadLoop] at he
    by_cases h1 : cap ≤ count
    · rw [if_pos h1] at he; exact hacc e he
    · rw [if_neg h1] at he
      cases hr1 : readU16 file with
      | none => simp only [hr1] at he; exact hacc e he
      | some kf =>
        obtain ⟨klen, f1⟩ := kf
        simp only [hr1] at he
        by_cases h2 : klen = 0 ∨ 255 < klen
        · rw [if_pos h2] at he; exact hacc e he
        · rw [if_neg h2] at he
          cases hr2 : readBytes klen f1 with
          | none => simp only [hr2] at he; exact hacc e he
          | some kp =>
            obtain ⟨kbytes, f2⟩ := kp
            simp only [hr2] at he
            cases hr3 : readU16 f2 with
            | none => simp only [hr3] at he; exact hacc e he
            | some rp =>
              obtain ⟨rlen, f3⟩ := rp
              simp only [hr3] at he
              by_cases h3 : 65535 < rlen
              · rw [if_pos h3] at he; exact hacc e he
              · rw [if_neg h3] at he
                cases hr4 : readBytes rlen f3 with
                | none => simp only [hr4] at he; exact hacc e he
                | some bp =>
                  obtain ⟨rbytes, f4⟩ := bp
                  simp only [hr4] at he
                  refine ih f4 (count + 1) _ ?_ e he
                  intro e' he'
                  rcases List.mem_cons.mp he' with h | h
                  · subst h
                    have hkb : kbytes.length ≤ klen := by
                      rw [readBytes] at hr2
                      split at hr2
                      · exact absurd hr2 (by simp)
                      · cases hr2; simp
                    exact goodKey_cstr (by omega)
                  · exact hacc e' h

theorem evictGo_sublist (cap : Nat) : ∀ (fuel : Nat) (es : List CEntry),
    List.Sublist (evictGo cap fuel es) es := by
  intro fuel
  induction fuel with
  | zero => intro es; exact List.Sublist.refl es
  | succ n ih =>
    intro es
    rw [evictGo]
    split
    · exact (ih es.dropLast).trans (List.dropLast_sublist es)
    · exact List.Sublist.refl es

theorem cache_put_keys_ok {c : LruCache} {kw : List Nat} {rsp : ResponseFrame}
    (hc : CacheKeysOk c) (hk : GoodKey kw) : CacheKeysOk (cache_put kw rsp c) := by
  rw [cache_put]
  split
  · exact hc
  · cases hfind : lruFind kw c.entries with
    | some e0 =>
      intro e he
      rcases List.mem_cons.mp he with h | h
      · subst h; exact hk
      · exact hc e ((List.eraseP_sublist c.entries).subset h)
    | none =>
      intro e he
      have := (evictGo_sublist c.cap _ ((kw, rsp) :: c.entries)).subset he
      rcases List.mem_cons.mp this with h | h
      · subst h; exact hk
      · exact hc e h

theorem cache_get_keys_ok {c : LruCache} {kw : List Nat}
    (hc : CacheKeysOk c) : CacheKeysOk (cache_get kw c).2 := by
  rw [cache_get]
  cases hfind : lruFind kw c.entries with
  | none => exact hc
  | some e0 =>
    intro e he
    rcases List.mem_cons.mp he with h | h
    · rw [h]
      exact hc e0 (List.mem_of_find?_eq_some
        (p := fun x : CEntry => x.1 == kw) hfind)
    · exact hc e ((List.eraseP_sublist c.entries).subset h)

theorem serve_dispatch_keys_ok (st : ServerState) (req : Request)
    (row : CmdRow) (hc : CacheKeysOk st.cache) :
    CacheKeysOk (serve_dispatch st req row).2.cache := by
  rw [serve_dispatch]
  split
  · simp only
    split
    · cases hfs : proto_arg_first_str req.payload with
      | none => simp only [hfs]; exact hc
      | some kw =>
        simp only [hfs]
        exact cache_put_keys_ok hc (first_str_goodKey hfs)
    · exact hc
  · split <;> exact hc

theorem serve_step_keys_ok (st : ServerState) (req : Request)
    (hc : CacheKeysOk st.cache) : CacheKeysOk (serve_step st req).2.cache := by
  rw [serve_step]
  cases hrow : cmd_by_opcode req.opcode with
  | none => exact hc
  | some row =>
    simp only
    split
    · cases hfs : proto_arg_first_str req.payload with
      | none => simp only [hfs]; exact serve_dispatch_keys_ok st req row hc
      | some kw =>
        simp only [hfs]
        cases hcg : cache_get kw st.cache with
        | mk o c' =>
          cases o with
          | none => simp only; exact serve_dispatch_keys_ok st req row hc
          | some hit =>
            simp only
            have := @cache_get_keys_ok st.cache kw hc
            rw [hcg] at this
            exact this
    · exact serve_dispatch_keys_ok st req row hc

/-- C10 (amended): every key present in the LRU cache — whether inserted by
the dispatcher after first-string extraction or loaded from disk — is a
NUL-free byte string of at most 255 bytes.  Contrary to the original claim
the key can be EMPTY: the stored key is the C string up to the first NUL of
the length-checked bytes, so a first argument whose bytes begin with a NUL
yields the empty key (see `C10_counterexample`). -/
theorem C10_cache_key_bounds (cap : Nat) (file : List Nat)
    (fs : List (List Nat × List Nat)) (store0 : List Document)
    (reqs : List Request) :
    ∀ e ∈ (runServer cap file fs store0 reqs).cache.entries,
      e.1.length ≤ 255 ∧ 0 ∉ e.1 := by
  have hinit : CacheKeysOk
      ⟨if cap = 0 then [] else load_from_disk cap file, cap⟩ := by
    split
    · intro e he; exact absurd he (by simp)
    · rw [load_from_disk]
      cases hr : readU32 file with
      | none => intro e he; exact absurd he (by simp)
      | some nf =>
        obtain ⟨n, rest⟩ := nf
        simp only
        exact loadLoop_keys_ok cap n rest 0 [] (by intro e he; cases he)
  suffices hgen : ∀ (st : ServerState), CacheKeysOk st.cache →
      CacheKeysOk (reqs.foldl (fun st req => (serve_step st req).2) st).cache by
    exact hgen _ hinit
  induction reqs with
  | nil => intro st hst; exact hst
  | cons req reqs ih =>
    intro st hst
    rw [List.foldl_cons]
    exact ih _ (serve_step_keys_ok st req hst)

/-- Witness for C10: a served `S` request inserts its 1-byte term as a
cache key, and that key satisfies the bounds. -/
theorem C10_cache_key_bounds_witness :
    (([107], proto_build_simple_rsp OP_S ERR_BYTES) ∈
      (runServer 1 [] [] [] [⟨OP_S, tlvEncode 1 [107]⟩]).cache.entries) ∧
    ([107] : List Nat).length ≤ 255 ∧ (0 : Nat) ∉ ([107] : List Nat) :=
  ⟨by decide,
   C10_cache_key_bounds 1 [] [] [] [⟨OP_S, tlvEncode 1 [107]⟩]
     ([107], proto_build_simple_rsp OP_S ERR_BYTES) (by decide)⟩

/-- C10 counterexample: an `S` request whose term TLV is the single byte
0x00 passes the length checks (`l = 1`), but the NUL-terminated copy makes
the stored C-string key EMPTY — the cache then holds an empty key,
refuting the "non-empty" part of the claim. -/
theorem C10_counterexample :
    ((runServer 1 [] [] [] [⟨OP_S, [1, 1, 0, 0]⟩]).cache.entries.map Prod.fst)
        = [[]] ∧
      ¬ (∀ k ∈ (runServer 1 [] [] [] [⟨OP_S, [1, 1, 0, 0]⟩]).cache.entries.map
          Prod.fst, k ≠ ([] : List Nat)) := by
  constructor
  · decide
  · decide

/-! ### C5: shape of the S reply -/

/-- The comma-separated rendering the spec describes, to compare the
builder loop against. -/
def commaJoin : List (List Nat) → List Nat
  | [] => []
  | [x] => x
  | x :: y :: xs => x ++ [44, 32] ++ commaJoin (y :: xs)

theorem commaJoin_cons (m : List Nat) (ms : List (List Nat)) :
    commaJoin (m :: ms) = m ++ (ms.map (fun x => [44, 32] ++ x)).flatten := by
  induction ms generalizing m with
  | nil => simp [commaJoin]
  | cons y ys ih =>
    rw [commaJoin, ih y]
    simp [List.append_assoc]

theorem foldl_listAccStep_false (hit : Nat → Bool) (ks : List Nat) :
    ∀ acc : List Nat,
    ks.foldl (listAccStep hit) (acc, false)
      = (acc ++ ((ks.filter hit).map
          (fun k => [44, 32] ++ natDigits k)).flatten, false) := by
  induction ks with
  | nil => intro acc; simp
  | cons k ks ih =>
    intro acc
    rw [List.foldl_cons]
    by_cases hk : hit k = true
    · rw [show listAccStep hit (acc, false) k
          = (acc ++ [44, 32] ++ natDigits k, false) by simp [listAccStep, hk]]
      rw [ih]
      simp [List.filter_cons, hk, List.append_assoc]
    · rw [show listAccStep hit (acc, false) k = (acc, false) by
        simp [listAccStep, hk]]
      rw [ih]
      simp [List.filter_cons, hk]

theorem foldl_listAccStep_true (hit : Nat → Bool) (ks : List Nat) :
    ∀ acc : List Nat,
    ks.foldl (listAccStep hit) (acc, true)
      = (match ks.filter hit with
        | [] => (acc, true)
        | h :: t => (acc ++ natDigits h ++ (t.map
            (fun k => [44, 32] ++ natDigits k)).flatten, false)) := by
  induction ks with
  | nil => intro acc; simp
  | cons k ks ih =>
    intro acc
    rw [List.foldl_cons]
    by_cases hk : hit k = true
    · rw [show listAccStep hit (acc, true) k = (acc ++ natDigits k, false) by
        simp [listAccStep, hk]]
      rw [foldl_listAccStep_false hit ks]
      simp [List.filter_cons, hk, List.append_assoc]
    · rw [show listAccStep hit (acc, true) k = (acc, true) by
        simp [listAccStep, hk]]
      rw [ih]
      simp [List.filter_cons, hk]

theorem buildList_eq (total : Nat) (hit : Nat → Bool) :
    buildList total hit
      = [91] ++ commaJoin (((List.range total).filter hit).map natDigits)
          ++ [93] := by
  rw [buildList, foldl_listAccStep_true]
  cases hf : (List.range total).filter hit with
  | nil => simp [commaJoin]
  | cons h t =>
    simp only [List.map_cons, commaJoin_cons, List.map_map]
    simp [Function.comp_def, List.append_assoc]

theorem proto_build_simple_rsp_ok (op : Nat) (msg : List Nat)
    (hfit : 3 + msg.length ≤ RSP_PAYLOAD_CAP) :
    proto_build_simple_rsp op msg =
      ⟨RSP_HDR_SZ + (3 + msg.length), op % 256, 0, tlvEncode 1 msg⟩ := by
  simp only [RSP_PAYLOAD_CAP, FRAME_MAX, RSP_HDR_SZ] at hfit
  have hadd : proto_add_tlv (proto_rsp_init op 0).2 1 msg
      = some ⟨[] ++ tlvEncode 1 msg, RSP_PAYLOAD_CAP⟩ := by
    rw [proto_add_tlv, if_neg (by omega), if_neg ?_]
    · rfl
    · show ¬ RSP_PAYLOAD_CAP < ([] : List Nat).length + (3 + msg.length)
      simp only [RSP_PAYLOAD_CAP, FRAME_MAX, RSP_HDR_SZ, List.length_nil]
      omega
  rw [proto_build_simple_rsp]
  simp only [hadd, Option.getD_some]
  rw [proto_rsp_finish, if_neg ?_]
  · simp only [Option.getD_some, proto_rsp_init, List.nil_append]
    rw [tlvEncode_length]
  · simp only [List.nil_append, tlvEncode_length]
    simp only [FRAME_MAX, RSP_HDR_SZ]
    omega

theorem cursorRun_single (t : Nat) (msg : List Nat) (ht : t < 256)
    (hlen : msg.length ≤ 65535) :
    cursorRun (tlvEncode t msg) = some [(t, msg)] := by
  have h := cursorRun_encodeAll [(t, msg)] ?_
  · simpa [encodeAll] using h
  · intro p hp
    simp only [List.mem_singleton] at hp
    subst hp
    exact ⟨ht, hlen⟩

/-- C5 (amended: the store must hold at least one document — with zero
documents `handle_s` fails and the child replies `"ERR"` instead of `"[]"`,
see `C5_counterexample` — and the rendered list must fit the payload): a
handled `S` request replies with a single string TLV whose value is the
`"[k1, k2, …]"` rendering of exactly the hit keys, comma-separated, in
ascending order, `"[]"` when there are no hits. -/
theorem C5_search_reply (args : List ArgVal) (store : List Document)
    (fs : List (List Nat × List Nat)) (term : List Nat)
    (harg : args.getD 0 argZero = ArgVal.str term)
    (htotal : store.length ≠ 0)
    (hfit : 3 + (buildList store.length (sHit store fs (cTrunc 256 term))).length
      ≤ RSP_PAYLOAD_CAP) :
    handle_s args store fs =
      (HandlerOut.ok (proto_build_simple_rsp OP_S
        (buildList store.length (sHit store fs (cTrunc 256 term)))), store) ∧
    cursorRun (proto_build_simple_rsp OP_S
        (buildList store.length (sHit store fs (cTrunc 256 term)))).payload
      = some [(1, buildList store.length (sHit store fs (cTrunc 256 term)))] ∧
    buildList store.length (sHit store fs (cTrunc 256 term))
      = [91] ++ commaJoin (((List.range store.length).filter
          (sHit store fs (cTrunc 256 term))).map natDigits) ++ [93] ∧
    ((List.range store.length).filter
        (sHit store fs (cTrunc 256 term))).Pairwise (· < ·) ∧
    (∀ k, k ∈ (List.range store.length).filter (sHit store fs (cTrunc 256 term))
      ↔ (k < store.length ∧ sHit store fs (cTrunc 256 term) k = true)) ∧
    ((List.range store.length).filter (sHit store fs (cTrunc 256 term)) = [] →
      buildList store.length (sHit store fs (cTrunc 256 term)) = [91, 93]) := by
  refine ⟨?_, ?_, buildList_eq _ _, ?_, ?_, ?_⟩
  · simp only [handle_s, harg, argStr]
    rw [if_neg htotal]
  · rw [proto_build_simple_rsp_ok OP_S _ hfit]
    exact cursorRun_single 1 _ (by omega) (by
      simp only [RSP_PAYLOAD_CAP, FRAME_MAX, RSP_HDR_SZ] at hfit
      omega)
  · exact ((List.sorted_lt_range store.length).filter _)
  · intro k
    simp [List.mem_filter, List.mem_range]
  · intro h
    rw [buildList_eq, h]
    simp [commaJoin]

/-- Witness store and docroot for C5: one document at path `[102]` whose
content is the byte `[120]`. -/
def wStore : List Document := [⟨0, [], [], [102], 0⟩]

def wFs : List (List Nat × List Nat) := [([102], [120])]

/-- Witness for C5: store with one matching document; the reply lists key
0. -/
theorem C5_search_reply_witness :
    ([ArgVal.str [120], argZero].getD 0 argZero = ArgVal.str [120]) ∧
    wStore.length ≠ 0 ∧
    (3 + (buildList wStore.length (sHit wStore wFs (cTrunc 256 [120]))).length
      ≤ RSP_PAYLOAD_CAP) ∧
    handle_s [ArgVal.str [120], argZero] wStore wFs =
      (HandlerOut.ok (proto_build_simple_rsp OP_S
        (buildList wStore.length (sHit wStore wFs (cTrunc 256 [120])))), wStore) :=
  ⟨rfl, by decide, by decide,
   (C5_search_reply [ArgVal.str [120], argZero] wStore wFs [120]
     rfl (by decide) (by decide)).1⟩

/-- C5 counterexample: with a store of zero documents the handler returns
`OS_ERROR` (`total <= 0`), so the served reply is the synthetic `"ERR"`
string TLV, not `"[]"`. -/
theorem C5_counterexample :
    (serve_step ⟨[], [], ⟨[], 0⟩⟩ ⟨OP_S, tlvEncode 1 [120]⟩).1
        = some (proto_build_simple_rsp OP_S ERR_BYTES) ∧
      proto_build_simple_rsp OP_S ERR_BYTES
        ≠ proto_build_simple_rsp OP_S [91, 93] := by
  constructor
  · decide
  · decide

end DocSrv
